import Mathlib

/-!
Verification of the gitsmart repository intelligence engine
(src/gitsmart/git_context.py and src/gitsmart/storage.py) against its
natural-language specification.

Shallow embedding conventions:
* a `git.Commit` is the record `GCommit`; its per-commit diff statistics
  (`commit.stats`) are `Option GStats`, where `none` models a stats
  computation that raises;
* Python `datetime` values are modelled by their POSIX timestamps (`Int`),
  since `datetime.fromtimestamp` is a strictly monotone injection;
* Python dictionaries are association lists; the engine commit cache
  `self._commit_cache` is `List (String × CommitInfo)` with leftmost
  binding winning on lookup;
* a Python call that may raise is embedded as `Except Unit _`; stateful
  methods take and return the caches explicitly.
-/

/-- Python word characters as matched by the regular pattern used in
`re.findall` with a word-class pattern, restricted to ASCII inputs. -/
def isWordChar (c : Char) : Bool :=
  c.isAlpha || c.isDigit || c = '_'

/-- Accumulator pass splitting a character list into maximal runs of word
characters; `cur` holds the current run reversed. -/
def wordRunsAux : List Char → List Char → List String → List String
  | [], cur, acc =>
      if cur.isEmpty then acc else acc ++ [String.mk cur.reverse]
  | c :: rest, cur, acc =>
      if isWordChar c then wordRunsAux rest (c :: cur) acc
      else if cur.isEmpty then wordRunsAux rest [] acc
      else wordRunsAux rest [] (acc ++ [String.mk cur.reverse])

/-- Embedding of Python re.findall with the word pattern: the maximal runs
of word characters of a string, in order. -/
def findallWords (s : String) : List String :=
  wordRunsAux s.toList [] []

/-- Python set(re.findall(word pattern, s)): distinct tokens; sets are
modelled as duplicate-free lists keeping first occurrences. -/
def tokenSet (s : String) : List String :=
  (findallWords s).eraseDups

/-- True when the first list is an initial segment of the second; helper
for substring containment. -/
def startsWithList : List Char → List Char → Bool
  | [], _ => true
  | _ :: _, [] => false
  | a :: as, b :: bs => a = b && startsWithList as bs

/-- Occurrence of `needle` as a contiguous subsequence of `hay`. -/
def containsSub (needle : List Char) : List Char → Bool
  | [] => needle.isEmpty
  | c :: rest => startsWithList needle (c :: rest) || containsSub needle rest

/-- Embedding of the Python substring test: `needle in hay`. -/
def strContains (hay needle : String) : Bool :=
  containsSub needle.toList hay.toList

/-- Python str.join with a single-space separator. -/
def joinSpace : List String → String
  | [] => ""
  | [s] => s
  | s :: rest => s ++ " " ++ joinSpace rest

/-- Size of the intersection of two token sets; the first argument is
duplicate-free so counting its members found in the second is the Python
`len(a & b)`. -/
def interCount (a b : List String) : Nat :=
  (a.filter (fun w => b.contains w)).length

/-- Embedding of Python str.lower for ASCII text, as a character map so
that closed evaluations reduce in the kernel. -/
def lowerStr (s : String) : String :=
  String.mk (s.toList.map Char.toLower)

/-- Embedding of Python str.strip: whitespace removed from both ends. -/
def pyStrip (s : String) : String :=
  String.mk
    (((s.toList.dropWhile Char.isWhitespace).reverse.dropWhile
        Char.isWhitespace).reverse)

/-- Python slicing s[:n], as a character-list take. -/
def strTake (s : String) (n : Nat) : String :=
  String.mk (s.toList.take n)

/-- Decidable equality of embedded fallible results. -/
instance {ε α : Type} [DecidableEq ε] [DecidableEq α] :
    DecidableEq (Except ε α)
  | .ok x, .ok y =>
      if h : x = y then .isTrue (by rw [h])
      else .isFalse (by intro hh; cases hh; exact h rfl)
  | .ok _, .error _ => .isFalse (by intro h; cases h)
  | .error _, .ok _ => .isFalse (by intro h; cases h)
  | .error e, .error f =>
      if h : e = f then .isTrue (by rw [h])
      else .isFalse (by intro hh; cases hh; exact h rfl)

/-- Per-commit diff statistics: the ordered keys of `commit.stats.files`
together with `commit.stats.total` insertions and deletions. -/
structure GStats where
  files : List String
  insertions : Nat
  deletions : Nat
deriving DecidableEq, Repr

/-- A raw `git.Commit` as consumed by the engine.  `stats = none` models a
commit whose diff-statistics computation raises. -/
structure GCommit where
  hexsha : String
  message : String
  authorName : String
  authorEmail : String
  committedDate : Int
  stats : Option GStats
deriving DecidableEq, Repr

/-- Embedding of the CommitInfo dataclass of git_context.py; `date` is the
POSIX timestamp passed to `datetime.fromtimestamp`. -/
structure CommitInfo where
  hash : String
  short_hash : String
  message : String
  author : String
  email : String
  date : Int
  files_changed : List String
  insertions : Nat
  deletions : Nat
deriving DecidableEq, Repr

/-- The engine commit cache `self._commit_cache : Dict[str, CommitInfo]`. -/
abbrev Cache := List (String × CommitInfo)

/-- Dictionary lookup in the commit cache. -/
def cacheLookup : Cache → String → Option CommitInfo
  | [], _ => none
  | (k, v) :: rest, key => if k = key then some v else cacheLookup rest key

/-- Embedding of GitContextExtractor._commit_to_info.  Returns the record,
the cache after the call, and the number of stats derivations performed
(the instrumentation counter of spec section 8: 1 on a cache miss, 0 on a
hit).  On a miss with unavailable stats the except-branch fallback is the
empty file list and zero insertions and deletions. -/
def commit_to_info (cache : Cache) (c : GCommit) : CommitInfo × Cache × Nat :=
  match cacheLookup cache c.hexsha with
  | some info => (info, cache, 0)
  | none =>
      let fid := match c.stats with
        | some s => (s.files, s.insertions, s.deletions)
        | none => ([], 0, 0)
      let info : CommitInfo :=
        { hash := c.hexsha
          short_hash := strTake c.hexsha 8
          message := pyStrip c.message
          author := c.authorName
          email := c.authorEmail
          date := c.committedDate
          files_changed := fid.1
          insertions := fid.2.1
          deletions := fid.2.2 }
      (info, (c.hexsha, info) :: cache, 1)

/-- Mapping GitContextExtractor._commit_to_info over a list of commits,
threading the cache, as done for recent-activity and recent-changes
lists. -/
def commitsToInfos (cache : Cache) (cs : List GCommit) : List CommitInfo × Cache :=
  match cs with
  | [] => ([], cache)
  | c :: rest =>
      let r := commit_to_info cache c
      let tail := commitsToInfos r.2.1 rest
      (r.1 :: tail.1, tail.2)

example : findallWords "fix redis-timeout x2" = ["fix", "redis", "timeout", "x2"] := by decide
example : strContains "update docs redis/config.py" "redis" = true := by decide
example : strContains "fix typo a.txt" "redis fix" = false := by decide

/-- Stable insertion step for descending sort by the Nat key: the element
being inserted is earlier in the original list than everything already
sorted, so it goes before the first element whose key is not larger. -/
def insertScored {α : Type} (x : Nat × α) : List (Nat × α) → List (Nat × α)
  | [] => [x]
  | y :: ys => if y.1 > x.1 then y :: insertScored x ys else x :: y :: ys

/-- Embedding of Python list.sort with a score key and reverse order: a
stable sort placing higher scores first and keeping insertion order among
equal scores. -/
def sortByScoreDesc {α : Type} (l : List (Nat × α)) : List (Nat × α) :=
  l.foldr insertScored []

/-- Relevance score of one commit for GitContextExtractor.search_commits:
the body of the loop, lines 162-178 of git_context.py.  Accessing
`commit.stats.files` raises when the stats computation fails, hence the
error case. -/
def scoreCommit (queryLower : String) (queryWords : List String) (c : GCommit) :
    Except Unit Nat :=
  match c.stats with
  | none => .error ()
  | some s =>
      let commitText := lowerStr (c.message ++ " " ++ joinSpace s.files)
      let commitWords := tokenSet commitText
      let exactScore := if strContains commitText queryLower then 10 else 0
      let wordMatches := interCount queryWords commitWords
      let pathScore :=
        (s.files.filter
          (fun fp => queryWords.any (fun w => strContains (lowerStr fp) w))).length
      .ok (exactScore + wordMatches * 2 + pathScore)

/-- The enumeration loop of search_commits.  The loop head breaks as soon
as the accumulated positively-scored candidates reach max_results.  Cache
mutations made before an exception persist, so the cache is returned in
the error case too. -/
def searchLoop (queryLower : String) (queryWords : List String) (maxResults : Nat) :
    List GCommit → Cache → List (Nat × CommitInfo) →
    Except Unit (List (Nat × CommitInfo)) × Cache
  | [], cache, acc => (.ok acc, cache)
  | c :: rest, cache, acc =>
      if acc.length ≥ maxResults then (.ok acc, cache)
      else
        match scoreCommit queryLower queryWords c with
        | .error e => (.error e, cache)
        | .ok score =>
            if score > 0 then
              let r := commit_to_info cache c
              searchLoop queryLower queryWords maxResults rest r.2.1
                (acc ++ [(score, r.1)])
            else
              searchLoop queryLower queryWords maxResults rest cache acc

/-- Embedding of GitContextExtractor.search_commits, lines 151-186 of
git_context.py.  `log` is `self.repo.iter_commits()` newest-first; the
engine commit cache is threaded explicitly. -/
def search_commits (cache : Cache) (log : List GCommit) (query : String)
    (maxResults : Nat) : Except Unit (List CommitInfo) × Cache :=
  let queryLower := lowerStr query
  let queryWords := tokenSet queryLower
  let r := searchLoop queryLower queryWords maxResults log cache []
  match r.1 with
  | .error e => (.error e, r.2)
  | .ok matching =>
      (.ok ((sortByScoreDesc matching).map (fun p => p.2)), r.2)

/-- Embedding of the Memory dataclass of storage.py.  The free-form
`context : Dict[str, Any]` mapping is modelled as string key-value pairs;
`enhanced_content = none` models Python None. -/
structure Memory where
  id : String
  content : String
  enhanced_content : Option String
  memory_type : String
  context : List (String × String)
  tags : List String
  created_at : String
deriving DecidableEq, Repr

/-- A single-quote character, built numerically so that string literals in
this file stay quote-free. -/
def sQuote : String := String.singleton (Char.ofNat 39)

/-- Python str.join with a comma-space separator. -/
def joinComma : List String → String
  | [] => ""
  | [s] => s
  | s :: rest => s ++ ", " ++ joinComma rest

/-- Python str() rendering of a string-to-string dictionary, as used for
`context_text = str(memory.context)` in search_memories: keys and values
between single quotes, pairs joined by a comma and space, wrapped in
braces. -/
def pyStrDict (d : List (String × String)) : String :=
  let items := d.map (fun kv => sQuote ++ kv.1 ++ sQuote ++ ": " ++ sQuote ++ kv.2 ++ sQuote)
  "\x7b" ++ joinComma items ++ "\x7d"

/-- Relevance score of one memory for KnowledgeStorage.search_memories,
lines 114-133 of storage.py.  Note the Python truthiness test on
`memory.enhanced_content`: an empty string is falsy, so it contributes
nothing even though the empty query would be contained in it. -/
def memScore (queryLower : String) (m : Memory) : Nat :=
  let contentScore := if strContains (lowerStr m.content) queryLower then 5 else 0
  let enhancedScore :=
    match m.enhanced_content with
    | none => 0
    | some ec =>
        if ec = "" then 0
        else if strContains (lowerStr ec) queryLower then 3 else 0
  let tagScore :=
    2 * (m.tags.filter (fun t => strContains (lowerStr t) queryLower)).length
  let contextScore :=
    if strContains (lowerStr (pyStrDict m.context)) queryLower then 1 else 0
  contentScore + enhancedScore + tagScore + contextScore

/-- Embedding of KnowledgeStorage.search_memories, lines 107-140 of
storage.py: one iteration of the scoring loop, appending a memory with a
positive score to the scored accumulator.  The Python version returns dict
renderings of the memories; the embedding keeps the memories themselves. -/
def memStep (queryLower : String) (acc : List (Nat × Memory)) (m : Memory) :
    List (Nat × Memory) :=
  let score := memScore queryLower m
  if score > 0 then acc ++ [(score, m)] else acc

/-- Embedding of KnowledgeStorage.search_memories, lines 107-140 of
storage.py, continued: the accumulation loop over the store followed by
the stable descending sort and the truncation to the limit. -/
def search_memories (memories : List Memory) (query : String) (limit : Nat) :
    List Memory :=
  let queryLower := lowerStr query
  let scored := memories.foldl (memStep queryLower) []
  ((sortByScoreDesc scored).take limit).map (fun p => p.2)

/-- Accumulator extracting the final path component: reset at each forward
slash, as pathlib name does for POSIX-style paths. -/
def pathNameAux : List Char → List Char → List Char
  | [], cur => cur.reverse
  | c :: rest, cur =>
      if c = '/' then pathNameAux rest [] else pathNameAux rest (c :: cur)

/-- Embedding of pathlib PurePath.name for forward-slash paths. -/
def pathName (p : String) : String :=
  String.mk (pathNameAux p.toList [])

/-- Index of the last occurrence of a character in a list, if any. -/
def lastIdxOf (cs : List Char) (c : Char) : Option Nat :=
  ((cs.enum.filter (fun p => p.2 = c)).getLast?).map (fun p => p.1)

/-- Embedding of pathlib PurePath.suffix: the substring of the final
component from its last dot, empty when the dot is leading, trailing or
absent (cpython: nonempty only when 0 < i < len(name) - 1). -/
def pathSuffix (p : String) : String :=
  let name := (pathName p).toList
  match lastIdxOf name '.' with
  | none => ""
  | some i =>
      if 0 < i && i < name.length - 1 then String.mk (name.drop i) else ""

/-- String-keyed association-list lookup (Python dict.get). -/
def lookupStr : List (String × String) → String → Option String
  | [], _ => none
  | (k, v) :: rest, key => if k = key then some v else lookupStr rest key

/-- The extension-to-language table of
GitContextExtractor._analyze_languages. -/
def language_map : List (String × String) :=
  [(".py", "Python"), (".js", "JavaScript"), (".ts", "TypeScript"),
   (".java", "Java"), (".cpp", "C++"), (".cc", "C++"), (".cxx", "C++"),
   (".c", "C"), (".h", "C/C++"), (".go", "Go"), (".rs", "Rust"),
   (".php", "PHP"), (".rb", "Ruby"), (".swift", "Swift"), (".kt", "Kotlin"),
   (".scala", "Scala"), (".cs", "C#"), (".html", "HTML"), (".css", "CSS"),
   (".scss", "SCSS"), (".vue", "Vue"), (".jsx", "React"),
   (".tsx", "React/TypeScript"), (".sql", "SQL"), (".sh", "Shell"),
   (".yml", "YAML"), (".yaml", "YAML"), (".json", "JSON"), (".xml", "XML"),
   (".md", "Markdown"), (".dockerfile", "Docker")]

/-- Increment of a counting dictionary entry, appending new keys at the
end as Python defaultdict insertion order does. -/
def bumpCount : List (String × Nat) → String → List (String × Nat)
  | [], k => [(k, 1)]
  | (k2, v) :: rest, k =>
      if k2 = k then (k2, v + 1) :: rest else (k2, v) :: bumpCount rest k

/-- Embedding of GitContextExtractor._analyze_languages: count tracked
files per language label, unrecognized extensions mapping to Other. -/
def analyze_languages (filepaths : List String) : List (String × Nat) :=
  filepaths.foldl
    (fun langs fp =>
      let ext := lowerStr (pathSuffix fp)
      bumpCount langs ((lookupStr language_map ext).getD "Other")) []

/-- Python max over dict keys with the count as key function: the first
key attaining the maximal count in insertion order. -/
def firstMaxKey (l : List (String × Nat)) : Option String :=
  (l.foldl
    (fun acc kv =>
      match acc with
      | none => some kv
      | some best => if kv.2 > best.2 then some kv else some best)
    none).map (fun p => p.1)

/-- Embedding of the RepoStats dataclass of git_context.py. -/
structure RepoStats where
  commit_count : Nat
  file_count : Nat
  contributor_count : Nat
  age_days : Int
  primary_language : Option String
  languages : List (String × Nat)
  recent_activity : List CommitInfo
  branch_count : Nat
  current_branch : String
deriving DecidableEq, Repr

/-- The repository handle consumed by GitContextExtractor: the newest-first
commit enumeration, the branch list, the active branch (`none` models a
falsy `active_branch`, rendered as the `unknown` sentinel), and the HEAD
tree blob paths (`none` models a tree traversal that raises). -/
structure GRepo where
  log : List GCommit
  branches : List String
  activeBranch : Option String
  treeFiles : Option (List String)
deriving Repr

/-- Embedding of GitContextExtractor.get_repo_stats, lines 97-149 of
git_context.py, threading the commit cache through the recent-activity
conversion. -/
def get_repo_stats (cache : Cache) (repo : GRepo) : RepoStats × Cache :=
  match repo.log with
  | [] =>
      ({ commit_count := 0
         file_count := 0
         contributor_count := 0
         age_days := 0
         primary_language := none
         languages := []
         recent_activity := []
         branch_count := repo.branches.length
         current_branch := repo.activeBranch.getD "unknown" }, cache)
  | newest :: rest =>
      let commits := newest :: rest
      let contributor_count := ((commits.map (fun c => c.authorEmail)).eraseDups).length
      let oldest := commits.getLast (by simp)
      let age_days := Int.fdiv (newest.committedDate - oldest.committedDate) 86400
      let census := match repo.treeFiles with
        | some tracked =>
            let langs := analyze_languages tracked
            (tracked.length, langs, firstMaxKey langs)
        | none => (0, [], none)
      let ra := commitsToInfos cache (commits.take 20)
      ({ commit_count := commits.length
         file_count := census.1
         contributor_count := contributor_count
         age_days := age_days
         primary_language := census.2.2
         languages := census.2.1
         recent_activity := ra.1
         branch_count := repo.branches.length
         current_branch := repo.activeBranch.getD "unknown" }, ra.2)

/-- Embedding of the FileHistory dataclass of git_context.py; timestamps
are the POSIX values passed to `datetime.fromtimestamp`. -/
structure FileHistory where
  filepath : String
  fs_exists : Bool
  creation_date : Option Int
  last_modified : Option Int
  total_commits : Nat
  authors : List String
  recent_changes : List CommitInfo
  lines_of_code : Option Nat
  file_size : Option Nat
deriving DecidableEq, Repr

/-- The per-path cache `self._file_cache : Dict[str, FileHistory]`. -/
abbrev FileCache := List (String × FileHistory)

/-- Dictionary lookup in the per-path file cache. -/
def fileCacheLookup : FileCache → String → Option FileHistory
  | [], _ => none
  | (k, v) :: rest, key => if k = key then some v else fileCacheLookup rest key

/-- The fixed whitelist of GitContextExtractor._is_text_file. -/
def text_extensions : List String :=
  [".py", ".js", ".ts", ".java", ".cpp", ".c", ".h", ".go", ".rs",
   ".php", ".rb", ".swift", ".kt", ".scala", ".cs", ".html", ".css",
   ".scss", ".vue", ".jsx", ".tsx", ".sql", ".sh", ".yml", ".yaml",
   ".json", ".xml", ".md", ".txt", ".conf", ".cfg", ".ini"]

/-- Embedding of GitContextExtractor._is_text_file: membership of the
lower-cased extension in the whitelist. -/
def is_text_file (filepath : String) : Bool :=
  text_extensions.contains (lowerStr (pathSuffix filepath))

/-- The per-path facts get_file_history consumes from the file system and
the git log: working-tree existence and byte size, the path-filtered
newest-first commit enumeration (`error` models a GitCommandError), and
the result of reading the file to count lines (`none` models a read that
raises). -/
structure FileQuery where
  filepath : String
  onDisk : Bool
  diskSize : Nat
  pathCommits : Except Unit (List GCommit)
  readLineCount : Option Nat
deriving Repr

/-- Embedding of GitContextExtractor.get_file_history, lines 188-253 of
git_context.py, threading the commit cache and the file cache. -/
def get_file_history (ccache : Cache) (fcache : FileCache) (fq : FileQuery) :
    FileHistory × Cache × FileCache :=
  match fileCacheLookup fcache fq.filepath with
  | some h => (h, ccache, fcache)
  | none =>
      let file_size := if fq.onDisk then some fq.diskSize else none
      let commits := match fq.pathCommits with
        | .ok cs => cs
        | .error _ => []
      match commits with
      | [] =>
          let h : FileHistory :=
            { filepath := fq.filepath
              fs_exists := fq.onDisk
              creation_date := none
              last_modified := none
              total_commits := 0
              authors := []
              recent_changes := []
              lines_of_code := none
              file_size := file_size }
          (h, ccache, (fq.filepath, h) :: fcache)
      | newest :: rest =>
          let cs := newest :: rest
          let creation_date := some ((cs.getLast (by simp)).committedDate)
          let last_modified := some newest.committedDate
          let authors := ((cs.map (fun c => c.authorEmail)).eraseDups)
          let rc := commitsToInfos ccache (cs.take 10)
          let lines_of_code :=
            if fq.onDisk && is_text_file fq.filepath then fq.readLineCount
            else none
          let h : FileHistory :=
            { filepath := fq.filepath
              fs_exists := fq.onDisk
              creation_date := creation_date
              last_modified := last_modified
              total_commits := cs.length
              authors := authors
              recent_changes := rc.1
              lines_of_code := lines_of_code
              file_size := file_size }
          (h, rc.2, (fq.filepath, h) :: fcache)

/-- Embedding of GitContextExtractor.get_recent_commits. -/
def get_recent_commits (cache : Cache) (log : List GCommit) (count : Nat) :
    List CommitInfo × Cache :=
  commitsToInfos cache (log.take count)

/-- Modelled from the spec, section 4.4 step 3 with the missing-stats
fallback of sections 4.1 and 7: the relevance score of one commit over
the lower-cased haystack of message and space-joined changed file paths,
with an unavailable stats computation replaced by an empty file list. -/
def specScoreCommit (queryLower : String) (queryWords : List String)
    (c : GCommit) : Nat :=
  let files := match c.stats with
    | some s => s.files
    | none => []
  let haystack := lowerStr (c.message ++ " " ++ joinSpace files)
  let exactScore := if strContains haystack queryLower then 10 else 0
  let tokenScore := 2 * interCount queryWords (tokenSet haystack)
  let pathScore :=
    (files.filter (fun fp => queryWords.any (fun w => strContains (lowerStr fp) w))).length
  exactScore + tokenScore + pathScore

/-- Modelled from the spec, section 4.4 steps 2, 4 and 5: score every
commit of the entire newest-first stream, discard zero scores, stable-sort
by descending score and only then truncate to the requested maximum, the
records being built by the Commit Record Builder. -/
def specRankCommits (log : List GCommit) (query : String) (maxResults : Nat) :
    List CommitInfo :=
  let queryLower := lowerStr query
  let queryWords := tokenSet queryLower
  let scored := log.filterMap (fun c =>
    let s := specScoreCommit queryLower queryWords c
    if s > 0 then some (s, (commit_to_info [] c).1) else none)
  ((sortByScoreDesc scored).take maxResults).map (fun p => p.2)

/-- Newer commit of the C1 failing input: scores 2 for the query
`redis fix` (one token match only). -/
def commitNew : GCommit :=
  { hexsha := "1111aaaa2222bbbb"
    message := "fix typo"
    authorName := "Ann"
    authorEmail := "ann@example.com"
    committedDate := 200
    stats := some { files := ["a.txt"], insertions := 1, deletions := 1 } }

/-- Older commit of the C1 failing input: scores 14 for the query
`redis fix` (verbatim substring plus two token matches). -/
def commitOld : GCommit :=
  { hexsha := "3333cccc4444dddd"
    message := "redis fix timeout"
    authorName := "Bob"
    authorEmail := "bob@example.com"
    committedDate := 100
    stats := some { files := ["b.txt"], insertions := 2, deletions := 0 } }

example : scoreCommit "redis fix" (tokenSet "redis fix") commitNew = .ok 2 := by decide
example : scoreCommit "redis fix" (tokenSet "redis fix") commitOld = .ok 14 := by decide
example :
    (search_commits [] [commitNew, commitOld] "redis fix" 1).1 =
      .ok [(commit_to_info [] commitNew).1] := by decide
example :
    specRankCommits [commitNew, commitOld] "redis fix" 1 =
      [(commit_to_info [] commitOld).1] := by decide

/-- Commit A of spec section 8 ranking-correctness: message
`fix redis timeout`, no query match among changed files. -/
def commitA : GCommit :=
  { hexsha := "aaaa1111bbbb2222"
    message := "fix redis timeout"
    authorName := "Ann"
    authorEmail := "ann@example.com"
    committedDate := 400
    stats := some { files := ["foo.txt"], insertions := 3, deletions := 1 } }

/-- Commit B of spec section 8 ranking-correctness: message
`update docs`, touching the path `redis/config.py`. -/
def commitB : GCommit :=
  { hexsha := "cccc3333dddd4444"
    message := "update docs"
    authorName := "Bob"
    authorEmail := "bob@example.com"
    committedDate := 300
    stats := some { files := ["redis/config.py"], insertions := 5, deletions := 2 } }

example : scoreCommit "redis" (tokenSet "redis") commitA = .ok 12 := by decide
example : scoreCommit "redis" (tokenSet "redis") commitB = .ok 13 := by decide
example :
    (search_commits [] [commitA, commitB] "redis" 10).1 =
      .ok [(commit_to_info [] commitB).1, (commit_to_info [] commitA).1] := by decide

/-- Memory with the tag `redis` and empty content, enhanced content and
context, from the C4 scenario. -/
def memTagOnly : Memory :=
  { id := "m1"
    content := ""
    enhanced_content := none
    memory_type := "note"
    context := []
    tags := ["redis"]
    created_at := "2024-01-01T00:00:00" }

/-- Memory with `redis` in its content and no other matching field, from
the C4 scenario. -/
def memContent : Memory :=
  { id := "m2"
    content := "use redis for caching"
    enhanced_content := none
    memory_type := "decision"
    context := []
    tags := []
    created_at := "2024-01-02T00:00:00" }

/-- Memory none of whose fields contain `redis`, from the C4 scenario. -/
def memUnrelated : Memory :=
  { id := "m3"
    content := "switch to postgres"
    enhanced_content := some "moved the main database to postgres"
    memory_type := "decision"
    context := [("branch", "main")]
    tags := ["db"]
    created_at := "2024-01-03T00:00:00" }

example : memScore (lowerStr "redis") memTagOnly = 2 := by decide
example : memScore (lowerStr "redis") memContent = 5 := by decide
example : memScore (lowerStr "redis") memUnrelated = 0 := by decide
example :
    search_memories [memTagOnly, memContent, memUnrelated] "redis" 10 =
      [memContent, memTagOnly] := by decide

/-- The search loop of search_commits with its early break removed; runs
in which the break condition never fires agree with it. -/
def scanCommits (queryLower : String) (queryWords : List String) :
    List GCommit → Cache → List (Nat × CommitInfo) →
    Except Unit (List (Nat × CommitInfo)) × Cache
  | [], cache, acc => (.ok acc, cache)
  | c :: rest, cache, acc =>
      match scoreCommit queryLower queryWords c with
      | .error e => (.error e, cache)
      | .ok score =>
          if score > 0 then
            let r := commit_to_info cache c
            scanCommits queryLower queryWords rest r.2.1 (acc ++ [(score, r.1)])
          else scanCommits queryLower queryWords rest cache acc

lemma searchLoop_eq_of_room (qL : String) (qW : List String) (m : Nat) :
    ∀ (cs : List GCommit) (cache : Cache) (acc : List (Nat × CommitInfo)),
      acc.length + cs.length ≤ m →
      searchLoop qL qW m cs cache acc = scanCommits qL qW cs cache acc := by
  intro cs
  induction cs with
  | nil =>
      intro cache acc _
      rfl
  | cons c rest ih =>
      intro cache acc h
      have hlen : rest.length + 1 = (c :: rest).length := by simp
      have hnb : ¬ acc.length ≥ m := by
        simp only [List.length_cons] at h
        omega
      simp only [searchLoop, scanCommits, if_neg hnb]
      cases hs : scoreCommit qL qW c with
      | error e => rfl
      | ok score =>
          by_cases hpos : score > 0
          · simp only [if_pos hpos]
            apply ih
            simp only [List.length_cons, List.length_append,
              List.length_nil] at h ⊢
            omega
          · simp only [if_neg hpos]
            apply ih
            simp only [List.length_cons] at h
            omega

lemma mem_insertScored {α : Type} (x y : Nat × α) (l : List (Nat × α)) :
    x ∈ insertScored y l → x = y ∨ x ∈ l := by
  induction l with
  | nil =>
      intro h
      simp only [insertScored, List.mem_singleton] at h
      exact Or.inl h
  | cons z zs ih =>
      intro h
      simp only [insertScored] at h
      split at h
      · rcases List.mem_cons.mp h with h1 | h2
        · exact Or.inr (List.mem_cons.mpr (Or.inl h1))
        · rcases ih h2 with ha | hb
          · exact Or.inl ha
          · exact Or.inr (List.mem_cons.mpr (Or.inr hb))
      · rcases List.mem_cons.mp h with h1 | h2
        · exact Or.inl h1
        · exact Or.inr h2

lemma mem_sortByScoreDesc {α : Type} (x : Nat × α) (l : List (Nat × α)) :
    x ∈ sortByScoreDesc l → x ∈ l := by
  induction l with
  | nil =>
      intro h
      simp [sortByScoreDesc] at h
  | cons y ys ih =>
      intro h
      have hfold : sortByScoreDesc (y :: ys) = insertScored y (sortByScoreDesc ys) := rfl
      rw [hfold] at h
      rcases mem_insertScored _ _ _ h with h1 | h2
      · exact List.mem_cons.mpr (Or.inl h1)
      · exact List.mem_cons.mpr (Or.inr (ih h2))

lemma memStep_fold_mem (qL : String) :
    ∀ (mems : List Memory) (acc : List (Nat × Memory)) (p : Nat × Memory),
      p ∈ mems.foldl (memStep qL) acc →
      p ∈ acc ∨ 0 < memScore qL p.2 := by
  intro mems
  induction mems with
  | nil =>
      intro acc p h
      exact Or.inl (by simpa using h)
  | cons m ms ih =>
      intro acc p h
      rw [List.foldl_cons] at h
      rcases ih _ p h with hacc | hpos
      · by_cases hc : 0 < memScore qL m
        · rw [memStep, if_pos hc] at hacc
          rcases List.mem_append.mp hacc with h1 | h2
          · exact Or.inl h1
          · right
            have hp : p = (memScore qL m, m) := by simpa using h2
            rw [hp]
            exact hc
        · rw [memStep, if_neg hc] at hacc
          exact Or.inl hacc
      · exact Or.inr hpos

lemma search_memories_pos (mems : List Memory) (q : String) (limit : Nat)
    (x : Memory) :
    x ∈ search_memories mems q limit → 0 < memScore (lowerStr q) x := by
  intro h
  unfold search_memories at h
  rcases List.mem_map.mp h with ⟨p, hp, hpx⟩
  have hp2 : p ∈ sortByScoreDesc (mems.foldl (memStep (lowerStr q)) []) :=
    List.take_subset _ _ hp
  have hp3 := mem_sortByScoreDesc _ _ hp2
  rcases memStep_fold_mem _ _ _ _ hp3 with h0 | hpos
  · simp at h0
  · rw [← hpx]
    exact hpos

/-- The claimed invariant of the commit cache: every stored record carries
the full hash it is keyed under and the 8-character short hash. -/
def CacheInv (cache : Cache) : Prop :=
  ∀ k info, cacheLookup cache k = some info →
    info.hash = k ∧ info.short_hash = strTake k 8

/-- One cache extends another without replacing or dropping a binding:
every key already present keeps its exact record. -/
def CachePres (c1 c2 : Cache) : Prop :=
  ∀ k info, cacheLookup c1 k = some info → cacheLookup c2 k = some info

lemma cachePres_refl (c : Cache) : CachePres c c :=
  fun _ _ h => h

lemma cachePres_trans {a b c : Cache} :
    CachePres a b → CachePres b c → CachePres a c :=
  fun h1 h2 k info hk => h2 k info (h1 k info hk)

lemma commit_to_info_pres (cache : Cache) (c : GCommit) :
    CachePres cache (commit_to_info cache c).2.1 := by
  cases h : cacheLookup cache c.hexsha with
  | some info =>
      simp only [commit_to_info, h]
      exact cachePres_refl cache
  | none =>
      simp only [commit_to_info, h]
      intro k i hk
      simp only [cacheLookup]
      by_cases hek : c.hexsha = k
      · rw [hek] at h
        rw [h] at hk
        cases hk
      · rw [if_neg hek]
        exact hk

lemma commit_to_info_inv (cache : Cache) (c : GCommit) :
    CacheInv cache → CacheInv (commit_to_info cache c).2.1 := by
  intro hinv
  cases h : cacheLookup cache c.hexsha with
  | some info =>
      simp only [commit_to_info, h]
      exact hinv
  | none =>
      simp only [commit_to_info, h]
      intro k i hk
      simp only [cacheLookup] at hk
      by_cases hek : c.hexsha = k
      · rw [if_pos hek] at hk
        cases hk
        exact ⟨hek, by rw [← hek]⟩
      · rw [if_neg hek] at hk
        exact hinv k i hk

lemma commitsToInfos_pres (cs : List GCommit) :
    ∀ cache : Cache, CachePres cache (commitsToInfos cache cs).2 := by
  induction cs with
  | nil =>
      intro cache
      exact cachePres_refl cache
  | cons c rest ih =>
      intro cache
      have h1 := commit_to_info_pres cache c
      have h2 := ih (commit_to_info cache c).2.1
      exact cachePres_trans h1 h2

lemma commitsToInfos_inv (cs : List GCommit) :
    ∀ cache : Cache, CacheInv cache → CacheInv (commitsToInfos cache cs).2 := by
  induction cs with
  | nil =>
      intro cache hinv
      exact hinv
  | cons c rest ih =>
      intro cache hinv
      exact ih _ (commit_to_info_inv cache c hinv)

lemma searchLoop_pres (qL : String) (qW : List String) (m : Nat) :
    ∀ (cs : List GCommit) (cache : Cache) (acc : List (Nat × CommitInfo)),
      CachePres cache (searchLoop qL qW m cs cache acc).2 := by
  intro cs
  induction cs with
  | nil =>
      intro cache acc
      exact cachePres_refl cache
  | cons c rest ih =>
      intro cache acc
      simp only [searchLoop]
      by_cases hb : acc.length ≥ m
      · rw [if_pos hb]
        exact cachePres_refl cache
      · rw [if_neg hb]
        cases hs : scoreCommit qL qW c with
        | error e => exact cachePres_refl cache
        | ok score =>
            by_cases hpos : score > 0
            · simp only [if_pos hpos]
              exact cachePres_trans (commit_to_info_pres cache c) (ih _ _)
            · simp only [if_neg hpos]
              exact ih _ _

lemma searchLoop_inv (qL : String) (qW : List String) (m : Nat) :
    ∀ (cs : List GCommit) (cache : Cache) (acc : List (Nat × CommitInfo)),
      CacheInv cache → CacheInv (searchLoop qL qW m cs cache acc).2 := by
  intro cs
  induction cs with
  | nil =>
      intro cache acc hinv
      exact hinv
  | cons c rest ih =>
      intro cache acc hinv
      simp only [searchLoop]
      by_cases hb : acc.length ≥ m
      · rw [if_pos hb]
        exact hinv
      · rw [if_neg hb]
        cases hs : scoreCommit qL qW c with
        | error e => exact hinv
        | ok score =>
            by_cases hpos : score > 0
            · simp only [if_pos hpos]
              exact ih _ _ (commit_to_info_inv cache c hinv)
            · simp only [if_neg hpos]
              exact ih _ _ hinv

lemma search_commits_snd (cache : Cache) (log : List GCommit) (query : String)
    (m : Nat) :
    (search_commits cache log query m).2 =
      (searchLoop (lowerStr query) (tokenSet (lowerStr query)) m log cache []).2 := by
  simp only [search_commits]
  cases h : (searchLoop (lowerStr query) (tokenSet (lowerStr query)) m log cache []).1 with
  | error e => rfl
  | ok matching => rfl

lemma get_repo_stats_snd (cache : Cache) (repo : GRepo) :
    (get_repo_stats cache repo).2 = cache ∨
    (get_repo_stats cache repo).2 = (commitsToInfos cache (repo.log.take 20)).2 := by
  unfold get_repo_stats
  cases repo.log with
  | nil => exact Or.inl rfl
  | cons newest rest => exact Or.inr rfl

lemma get_file_history_snd (ccache : Cache) (fcache : FileCache) (fq : FileQuery) :
    (get_file_history ccache fcache fq).2.1 = ccache ∨
    ∃ cs : List GCommit,
      (get_file_history ccache fcache fq).2.1 = (commitsToInfos ccache (cs.take 10)).2 := by
  unfold get_file_history
  cases fileCacheLookup fcache fq.filepath with
  | some h => exact Or.inl rfl
  | none =>
      cases hp : fq.pathCommits with
      | error e => exact Or.inl rfl
      | ok cs =>
          cases cs with
          | nil => exact Or.inl rfl
          | cons newest rest => exact Or.inr ⟨newest :: rest, rfl⟩

/-- Claim C1: search_commits is claimed to score the entire newest-first
commit stream, discard zeros, stable-sort by descending score and only
then truncate to the maximum, so that an older commit scoring strictly
higher than the first max-results positively-scored commits still appears.
The code instead breaks the enumeration once max_results positive
candidates have accumulated: at this input the newer commit scores 2 and
the older 14, yet with a maximum of 1 the code returns only the newer
commit while the spec-modelled full-scan pipeline returns the older one. -/
theorem c1_code_truncates_scan_before_sorting :
    (search_commits [] [commitNew, commitOld] "redis fix" 1).1 =
      .ok [(commit_to_info [] commitNew).1] ∧
    specRankCommits [commitNew, commitOld] "redis fix" 1 =
      [(commit_to_info [] commitOld).1] ∧
    scoreCommit (lowerStr "redis fix") (tokenSet (lowerStr "redis fix"))
      commitNew = .ok 2 ∧
    scoreCommit (lowerStr "redis fix") (tokenSet (lowerStr "redis fix"))
      commitOld = .ok 14 ∧
    (commit_to_info [] commitOld).1 ≠ (commit_to_info [] commitNew).1 := by
  decide

/-- Claim C2 (counterexample): for query `redis`, commit A with message
`fix redis timeout` and no file match scores 12, but commit B touching
`redis/config.py` scores 13, because the +10 verbatim-substring bonus also
fires on the changed-file-path part of the haystack; search_commits
therefore ranks B strictly above A, refuting that A ranks strictly above
B. -/
theorem c2_b_outranks_a_counterexample :
    (search_commits [] [commitA, commitB] "redis" 10).1 =
      .ok [(commit_to_info [] commitB).1, (commit_to_info [] commitA).1] ∧
    scoreCommit (lowerStr "redis") (tokenSet (lowerStr "redis")) commitA = .ok 12 ∧
    scoreCommit (lowerStr "redis") (tokenSet (lowerStr "redis")) commitB = .ok 13 ∧
    (commit_to_info [] commitB).1 ≠ (commit_to_info [] commitA).1 := by
  decide

/-- Claim C2 (amended): for query `redis` and any maximum result count of
at least 2, commit A scores exactly 12 (at least the claimed 12) and
commit B scores 13 (at least the claimed 1), and B ranks strictly above A
in the output of search_commits, since B also receives the +10 substring
bonus through its changed file path. -/
theorem c2_amended_ranking (m : Nat) (hm : 2 ≤ m) :
    scoreCommit (lowerStr "redis") (tokenSet (lowerStr "redis")) commitA = .ok 12 ∧
    scoreCommit (lowerStr "redis") (tokenSet (lowerStr "redis")) commitB = .ok 13 ∧
    (search_commits [] [commitA, commitB] "redis" m).1 =
      .ok [(commit_to_info [] commitB).1, (commit_to_info [] commitA).1] := by
  have h2 : search_commits [] [commitA, commitB] "redis" m =
      search_commits [] [commitA, commitB] "redis" 2 := by
    simp only [search_commits]
    rw [searchLoop_eq_of_room _ _ _ _ _ _ (by simpa using hm),
      searchLoop_eq_of_room _ _ _ _ _ _ (by decide)]
  rw [h2]
  decide

/-- Claim C2 (witness for the amended claim) at maximum result count 2. -/
theorem c2_amended_ranking_witness :
    scoreCommit (lowerStr "redis") (tokenSet (lowerStr "redis")) commitA = .ok 12 ∧
    scoreCommit (lowerStr "redis") (tokenSet (lowerStr "redis")) commitB = .ok 13 ∧
    (search_commits [] [commitA, commitB] "redis" 2).1 =
      .ok [(commit_to_info [] commitB).1, (commit_to_info [] commitA).1] :=
  c2_amended_ranking 2 (by decide)

/-- Commit whose diff-statistics computation raises, with a message
matching the query `redis`. -/
def commitBroken : GCommit :=
  { hexsha := "eeee5555ffff6666"
    message := "redis fix"
    authorName := "Cyd"
    authorEmail := "cyd@example.com"
    committedDate := 500
    stats := none }

/-- Repository whose only commit has unavailable diff statistics. -/
def repoBroken : GRepo :=
  { log := [commitBroken]
    branches := ["main"]
    activeBranch := some "main"
    treeFiles := some [] }

/-- Claim C3: building a CommitRecord and aggregating statistics do
tolerate a commit whose diff statistics are unavailable, falling back to
an empty changed-file list and zero insertions and deletions; but
search_commits reads commit.stats.files outside any handler
(git_context.py line 164), so at this input the search propagates the
error instead of completing with the fallback, contradicting the claim
for Commit Relevance Search. -/
theorem c3_search_propagates_missing_stats :
    (search_commits [] [commitBroken] "redis" 10).1 = .error () ∧
    (commit_to_info [] commitBroken).1 =
      { hash := "eeee5555ffff6666"
        short_hash := "eeee5555"
        message := "redis fix"
        author := "Cyd"
        email := "cyd@example.com"
        date := 500
        files_changed := []
        insertions := 0
        deletions := 0 } ∧
    (get_repo_stats [] repoBroken).1.recent_activity =
      [(commit_to_info [] commitBroken).1] ∧
    (get_repo_stats [] repoBroken).1.commit_count = 1 := by
  decide

/-- Claim C9: a maximum result count of 0 yields an empty sequence, not an
error, for both search components: the commit search breaks before
scoring any commit and leaves the cache untouched, the memory search
truncates its scored list to nothing. -/
theorem c9_zero_max_results (cache : Cache) (log : List GCommit)
    (query : String) (mems : List Memory) (q2 : String) :
    search_commits cache log query 0 = (.ok [], cache) ∧
    search_memories mems q2 0 = [] := by
  constructor
  · cases log with
    | nil => rfl
    | cons c rest => rfl
  · rfl

/-- Claim C4: for query `redis`, a memory whose only match is the tag
scores exactly 2, a memory whose only match is the content scores exactly
5 and is ordered before the first, and every memory with score 0 is
omitted from the result entirely rather than appended with score 0. -/
theorem c4_memory_relevance :
    memScore (lowerStr "redis") memTagOnly = 2 ∧
    memScore (lowerStr "redis") memContent = 5 ∧
    search_memories [memTagOnly, memContent, memUnrelated] "redis" 10 =
      [memContent, memTagOnly] ∧
    ∀ (mems : List Memory) (limit : Nat) (x : Memory),
      memScore (lowerStr "redis") x = 0 →
      x ∉ search_memories mems "redis" limit := by
  refine ⟨by decide, by decide, by decide, ?_⟩
  intro mems limit x h0 hmem
  have hpos := search_memories_pos mems "redis" limit x hmem
  rw [h0] at hpos
  exact Nat.lt_irrefl 0 hpos

/-- Claim C4 (witness): the zero-scoring memory of the concrete store is
omitted from the search result. -/
theorem c4_memory_relevance_witness :
    memUnrelated ∉ search_memories [memTagOnly, memContent, memUnrelated] "redis" 10 :=
  c4_memory_relevance.2.2.2 [memTagOnly, memContent, memUnrelated] 10
    memUnrelated (by decide)

/-- Claim C5: on a repository whose commit log enumerates zero commits,
get_repo_stats returns all-zero counts, null primary language, empty
language map and recent activity, and still reports the branch count and
the current branch name, leaving the commit cache untouched. -/
theorem c5_empty_repo_stats (cache : Cache) (repo : GRepo)
    (h : repo.log = []) :
    get_repo_stats cache repo =
      ({ commit_count := 0
         file_count := 0
         contributor_count := 0
         age_days := 0
         primary_language := none
         languages := []
         recent_activity := []
         branch_count := repo.branches.length
         current_branch := repo.activeBranch.getD "unknown" }, cache) := by
  unfold get_repo_stats
  rw [h]

/-- Repository with an empty commit log but live branch metadata. -/
def statsEmptyRepo : GRepo :=
  { log := []
    branches := ["main", "dev"]
    activeBranch := some "main"
    treeFiles := some [] }

/-- Claim C5 (witness) on a concrete empty-log repository with two
branches and active branch `main`. -/
theorem c5_empty_repo_stats_witness :
    get_repo_stats [] statsEmptyRepo =
      ({ commit_count := 0
         file_count := 0
         contributor_count := 0
         age_days := 0
         primary_language := none
         languages := []
         recent_activity := []
         branch_count := statsEmptyRepo.branches.length
         current_branch := statsEmptyRepo.activeBranch.getD "unknown" }, []) :=
  c5_empty_repo_stats [] statsEmptyRepo rfl

/-- Claim C6: when the path-filtered commit enumeration yields zero
commits or raises, get_file_history returns a FileHistory with zero total
commits, null creation and last-modified timestamps, empty authors and
empty recent changes instead of propagating an error. -/
theorem c6_missing_history (ccache : Cache) (fcache : FileCache)
    (fq : FileQuery)
    (hmiss : fileCacheLookup fcache fq.filepath = none)
    (h : fq.pathCommits = .ok [] ∨ fq.pathCommits = .error ()) :
    (get_file_history ccache fcache fq).1.total_commits = 0 ∧
    (get_file_history ccache fcache fq).1.creation_date = none ∧
    (get_file_history ccache fcache fq).1.last_modified = none ∧
    (get_file_history ccache fcache fq).1.authors = [] ∧
    (get_file_history ccache fcache fq).1.recent_changes = [] := by
  rcases h with h | h <;> simp [get_file_history, hmiss, h]

/-- Path query whose log enumeration raises a GitCommandError. -/
def fqGhost : FileQuery :=
  { filepath := "ghost.py"
    onDisk := false
    diskSize := 0
    pathCommits := .error ()
    readLineCount := none }

/-- Claim C6 (witness) on a concrete never-tracked path whose enumeration
raises. -/
theorem c6_missing_history_witness :
    (get_file_history [] [] fqGhost).1.total_commits = 0 ∧
    (get_file_history [] [] fqGhost).1.creation_date = none ∧
    (get_file_history [] [] fqGhost).1.last_modified = none ∧
    (get_file_history [] [] fqGhost).1.authors = [] ∧
    (get_file_history [] [] fqGhost).1.recent_changes = [] :=
  c6_missing_history [] [] fqGhost rfl (Or.inr rfl)

lemma getLast_le_head_date (newest : GCommit) (rest : List GCommit)
    (hsorted : List.Pairwise (fun a b => b.committedDate ≤ a.committedDate)
      (newest :: rest)) :
    ((newest :: rest).getLast (by simp)).committedDate ≤ newest.committedDate := by
  have hmem := List.getLast_mem (l := newest :: rest) (by simp)
  rcases List.mem_cons.mp hmem with heq | hmem2
  · rw [heq]
  · exact (List.pairwise_cons.mp hsorted).1 _ hmem2

/-- Claim C7: whenever get_file_history reports both a creation timestamp
and a last-modified timestamp, the creation timestamp is at most the
last-modified one, given that the path-filtered enumeration is newest
first (committed timestamps non-increasing along it). -/
theorem c7_creation_le_last_modified (ccache : Cache) (fcache : FileCache)
    (fq : FileQuery) (cs : List GCommit) (c m : Int)
    (hmiss : fileCacheLookup fcache fq.filepath = none)
    (hok : fq.pathCommits = .ok cs)
    (hsorted : List.Pairwise (fun a b => b.committedDate ≤ a.committedDate) cs)
    (hc : (get_file_history ccache fcache fq).1.creation_date = some c)
    (hm : (get_file_history ccache fcache fq).1.last_modified = some m) :
    c ≤ m := by
  cases cs with
  | nil => simp [get_file_history, hmiss, hok] at hc
  | cons newest rest =>
      simp only [get_file_history, hmiss, hok] at hc hm
      simp only [Option.some.injEq] at hc hm
      rw [← hc, ← hm]
      exact getLast_le_head_date newest rest hsorted

/-- Path query enumerating two commits newest-first (timestamps 200 then
100). -/
def fqTracked : FileQuery :=
  { filepath := "src/app.py"
    onDisk := true
    diskSize := 120
    pathCommits := .ok [commitNew, commitOld]
    readLineCount := some 10 }

/-- Claim C7 (witness) on a concrete two-commit path history with
creation timestamp 100 and last-modified timestamp 200. -/
theorem c7_creation_le_last_modified_witness : (100 : Int) ≤ 200 :=
  c7_creation_le_last_modified [] [] fqTracked [commitNew, commitOld] 100 200
    rfl rfl (by decide) (by decide) (by decide)

/-- Claim C8: converting the same commit twice through the same engine
instance yields equal records, leaves the cache unchanged on the second
request, and performs no second stats derivation (counter 0 on the second
call), for every starting cache. -/
theorem c8_second_lookup_is_cache_hit (cache : Cache) (c : GCommit) :
    (commit_to_info (commit_to_info cache c).2.1 c).1 =
      (commit_to_info cache c).1 ∧
    (commit_to_info (commit_to_info cache c).2.1 c).2.1 =
      (commit_to_info cache c).2.1 ∧
    (commit_to_info (commit_to_info cache c).2.1 c).2.2 = 0 := by
  cases h : cacheLookup cache c.hexsha with
  | some info => simp [commit_to_info, h]
  | none => simp [commit_to_info, h, cacheLookup]

/-- Claim C10: starting from any commit cache in which every key maps to a
record carrying that key as its full hash and its first 8 characters as
the short hash, each engine operation touching the cache (the record
builder itself, commit search, repository statistics, file history and
recent commits) preserves that invariant and never replaces or drops an
existing binding. -/
theorem c10_cache_records_consistent (cache : Cache) (c : GCommit)
    (log : List GCommit) (query : String) (m : Nat) (repo : GRepo)
    (fcache : FileCache) (fq : FileQuery) (count : Nat)
    (hinv : CacheInv cache) :
    (CacheInv (commit_to_info cache c).2.1 ∧
      CachePres cache (commit_to_info cache c).2.1) ∧
    (CacheInv (search_commits cache log query m).2 ∧
      CachePres cache (search_commits cache log query m).2) ∧
    (CacheInv (get_repo_stats cache repo).2 ∧
      CachePres cache (get_repo_stats cache repo).2) ∧
    (CacheInv (get_file_history cache fcache fq).2.1 ∧
      CachePres cache (get_file_history cache fcache fq).2.1) ∧
    (CacheInv (get_recent_commits cache log count).2 ∧
      CachePres cache (get_recent_commits cache log count).2) := by
  refine ⟨⟨commit_to_info_inv cache c hinv, commit_to_info_pres cache c⟩,
    ?_, ?_, ?_, ?_⟩
  · rw [search_commits_snd]
    exact ⟨searchLoop_inv _ _ _ _ _ _ hinv, searchLoop_pres _ _ _ _ _ _⟩
  · rcases get_repo_stats_snd cache repo with h | h
    · rw [h]
      exact ⟨hinv, cachePres_refl cache⟩
    · rw [h]
      exact ⟨commitsToInfos_inv _ _ hinv, commitsToInfos_pres _ _⟩
  · rcases get_file_history_snd cache fcache fq with h | ⟨cs, h⟩
    · rw [h]
      exact ⟨hinv, cachePres_refl cache⟩
    · rw [h]
      exact ⟨commitsToInfos_inv _ _ hinv, commitsToInfos_pres _ _⟩
  · exact ⟨commitsToInfos_inv _ _ hinv, commitsToInfos_pres _ _⟩

/-- Claim C10 (witness) starting from the empty cache with concrete
arguments for every operation. -/
theorem c10_cache_records_consistent_witness :
    (CacheInv (commit_to_info [] commitA).2.1 ∧
      CachePres [] (commit_to_info [] commitA).2.1) ∧
    (CacheInv (search_commits [] [commitA, commitB] "redis" 10).2 ∧
      CachePres [] (search_commits [] [commitA, commitB] "redis" 10).2) ∧
    (CacheInv (get_repo_stats [] statsEmptyRepo).2 ∧
      CachePres [] (get_repo_stats [] statsEmptyRepo).2) ∧
    (CacheInv (get_file_history [] [] fqTracked).2.1 ∧
      CachePres [] (get_file_history [] [] fqTracked).2.1) ∧
    (CacheInv (get_recent_commits [] [commitA, commitB] 5).2 ∧
      CachePres [] (get_recent_commits [] [commitA, commitB] 5).2) :=
  c10_cache_records_consistent [] commitA [commitA, commitB] "redis" 10
    statsEmptyRepo [] fqTracked 5
    (fun k info h => by simp [cacheLookup] at h)
